import Mathlib

/-!
Verification development for the whl-dbc DBC-to-artifact generation tool.

The repository's visible orchestration surface is `adbctool/gen.py` (the
function `main`), which parses command-line arguments, validates them, calls
`extract_dbc_meta` to build the persisted Protocol Model, and then drives the
three generators (`gen_proto_file`, `gen_protocols`,
`gen_vehicle_controller_and_manager`).

This file shallowly embeds that orchestration logic, and models the unseen
pipeline components (metadata extractor, model store, codec bit-packing)
from the specification's contracts, in order to settle the frozen claims.
-/

namespace WhlDbc

/-! ### Embedding of `adbctool/gen.py` (`main`)

`main` is embedded as a pure function `mainRun` over the post-argparse
argument record.  The external collaborators are parameters:

* `litEval` models `ast.literal_eval` on the raw option strings; `none`
  models the `(ValueError, SyntaxError)` outcome.  The type `V` of evaluated
  Python values is abstract because `main` never inspects them, it only
  forwards them to `extract_dbc_meta`; `emptyV` models the Python literal
  `[]` produced without evaluation when `parsed_args.sender_list` is falsy.
* `extractMeta` models the truthiness of the `extract_dbc_meta` result.

The result records the process outcome together with every collaborator call
`main` performed and every diagnostic it printed to stderr, so that claims
about call order, destinations and abort behaviour are statable.
-/

/-- The argparse result record of `gen.py`.  `sender`/`sender_list` are
`none` exactly when the corresponding option was not supplied (argparse
default `None`); `black_list` defaults to the string `"[]"` and
`output_dir` to `"output/"`. -/
structure Args where
  dbc_file : String
  car_type : String
  sender : Option String
  sender_list : Option String
  black_list : String
  output_dir : String
deriving DecidableEq, Repr

/-- One call to `extract_dbc_meta(dbc_file, protocol_conf_file, car_type,
black_list, sender_list, sender)`. -/
structure ExtractCall (V : Type) where
  dbc_file : String
  conf_file : String
  car_type : String
  black_list : V
  sender_list : V
  sender : Option String
deriving DecidableEq, Repr

/-- How the `main` process run ends:
`parserUsageError` is `parser.error(...)` (argparse prints usage plus the
message and exits with status 2); `sysExit n` is `sys.exit(n)`;
`normalReturn` is falling off the end of `main` or a plain `return`. -/
inductive RunOutcome where
  | parserUsageError : RunOutcome
  | sysExit : Nat → RunOutcome
  | normalReturn : RunOutcome
deriving DecidableEq, Repr

/-- The stderr diagnostics `main` can print. -/
inductive Diag where
  | invalidListFormat : Diag
  | failedExtractMeta : Diag
deriving DecidableEq, Repr

/-- Observable behaviour of one `main` run: the outcome plus every
collaborator call with its arguments, in the order of `gen.py`. -/
structure MainResult (V : Type) where
  outcome : RunOutcome
  extractCalls : List (ExtractCall V)
  genProtoCalls : List (String × String)
  genProtocolsCalls : List (String × String)
  genVehicleCalls : List (String × String)
  stderrDiags : List Diag
deriving DecidableEq, Repr

/-- Embedding of `main` from `adbctool/gen.py`, lines 86-126:

* line 89: `if parsed_args.sender is None and parsed_args.sender_list is None:
  parser.error(...)`;
* lines 94-101: `black_list = ast.literal_eval(parsed_args.black_list)`,
  then `sender_list = ast.literal_eval(parsed_args.sender_list) if
  parsed_args.sender_list else []`, with the except clause printing the
  diagnostic and calling `sys.exit(1)` (Python string truthiness makes an
  empty `--sender_list` string skip evaluation);
* line 105: `protocol_conf_file = "dbc.yml"`;
* lines 106-109: extraction, with the failure diagnostic and plain `return`;
* lines 112-123: the three generator calls and their destination strings
  (`str.lower()` modelled by `String.toLower`, identical on ASCII). -/
def mainRun {V : Type} (emptyV : V) (litEval : String → Option V)
    (extractMeta : ExtractCall V → Bool) (a : Args) : MainResult V :=
  if a.sender.isNone && a.sender_list.isNone then
    ⟨.parserUsageError, [], [], [], [], []⟩
  else
    match litEval a.black_list with
    | none => ⟨.sysExit 1, [], [], [], [], [.invalidListFormat]⟩
    | some bl =>
      match (match a.sender_list with
             | some s => if s ≠ "" then litEval s else some emptyV
             | none => some emptyV) with
      | none => ⟨.sysExit 1, [], [], [], [], [.invalidListFormat]⟩
      | some sl =>
        let conf := "dbc.yml"
        let call : ExtractCall V :=
          ⟨a.dbc_file, conf, a.car_type, bl, sl, a.sender⟩
        if extractMeta call then
          ⟨.normalReturn, [call],
           [(conf, a.output_dir ++ "proto/")],
           [(conf, a.output_dir ++ "vehicle/" ++ a.car_type.toLower ++ "/protocol/")],
           [(conf, a.output_dir ++ "vehicle/" ++ a.car_type.toLower ++ "/")],
           []⟩
        else
          ⟨.normalReturn, [call], [], [], [], [.failedExtractMeta]⟩

/-! ### A concrete model of `ast.literal_eval` on list-of-string literals

Modelled from the spec: `ast.literal_eval` itself is Python library code
outside this repository.  The CLI contract (§6) only feeds it "a delimited
list of message-id tokens" / "a delimited list of blacklisted message
names/ids" in Python list syntax, so we model its restriction to list
literals whose items are simple quoted strings.  The empty string is not a
well-formed Python literal (`SyntaxError` in Python), hence `none`. -/

/-- Python-style whitespace characters. -/
def isWS (c : Char) : Bool :=
  c == ' ' || c == Char.ofNat 9 || c == Char.ofNat 10 || c == Char.ofNat 13

/-- Trim whitespace from both ends of a character list. -/
def trimChars (cs : List Char) : List Char :=
  ((cs.dropWhile isWS).reverse.dropWhile isWS).reverse

/-- Strip one layer of matching single or double quotes after trimming;
`none` when the token is not a quoted string literal. -/
def unquoteTok (cs : List Char) : Option String :=
  match trimChars cs with
  | [] => none
  | q :: rest =>
    match rest.getLast? with
    | none => none
    | some e =>
      if (q == Char.ofNat 39 || q == Char.ofNat 34) && e == q then
        some (String.mk rest.dropLast)
      else none

/-- Split a character list at commas. -/
def splitComma : List Char → List (List Char)
  | [] => [[]]
  | c :: cs =>
    match splitComma cs with
    | [] => [[c]]
    | h :: t => if c == Char.ofNat 44 then [] :: h :: t else (c :: h) :: t

/-- Evaluate a Python list-of-string-literals token, `none` on anything
that is not well formed (in particular on the empty string). -/
def pyListEval (s : String) : Option (List String) :=
  match trimChars s.toList with
  | [] => none
  | b :: rest =>
    if b == Char.ofNat 91 then
      match rest.getLast? with
      | none => none
      | some e =>
        if e == Char.ofNat 93 then
          let inner := rest.dropLast
          if (trimChars inner).isEmpty then some []
          else (splitComma inner).mapM unquoteTok
        else none
    else none

/-! ### The Protocol Model data types

Modelled from the spec: the data model of §3 (the extractor, model store and
generators live outside `src/`; only `gen.py` is visible).  A `Signal`
carries name, start bit, bit length, byte order, signedness, scale, offset,
physical minimum/maximum, unit, and an optional value table; a `Message`
carries id, name, byte length, sending node, the derived `is_control` flag
and its ordered signals; the `ProtocolModel` aggregates the surviving
messages with the car-type stamp. -/

/-- DBC byte order: little-endian (Intel) or big-endian (Motorola). -/
inductive ByteOrder where
  | little : ByteOrder
  | big : ByteOrder
deriving DecidableEq, Repr

/-- A DBC signal record (spec §3). -/
structure Signal where
  name : String
  start_bit : Nat
  length : Nat
  order : ByteOrder
  is_signed : Bool
  scale : ℚ
  offset : ℚ
  phys_min : ℚ
  phys_max : ℚ
  unit : String
  value_table : Option (List (Nat × String))
deriving DecidableEq, Repr

/-- A raw message record as produced by the DBC parser (spec §4.1): no
classification flag yet. -/
structure RawMessage where
  id : Nat
  name : String
  length : Nat
  sender : String
  signals : List Signal
deriving DecidableEq, Repr

/-- A classified message of the Protocol Model (spec §3). -/
structure Message where
  id : Nat
  name : String
  length : Nat
  sender : String
  is_control : Bool
  signals : List Signal
deriving DecidableEq, Repr

/-- The Protocol Model (spec §3): surviving messages stamped with the car
type. -/
structure ProtocolModel where
  car_type : String
  messages : List Message
deriving DecidableEq, Repr

/-! ### Codec bit layout

Modelled from the spec (§4.5): the codec generator is not under `src/`.
Little-endian (Intel) signals occupy `length` consecutive bit positions
starting at `start_bit`, least-significant-bit-first within increasing byte
indices.  Big-endian (Motorola) signals place the raw value's most
significant bit at `start_bit` and walk the DBC big-endian bit-numbering
order: downward within a byte, then to bit 7 of the next byte.  A frame is
represented by its bit contents, `Nat → Bool` (bit index `8*byte + bit`). -/

/-- Reflect the bit index within its byte: position `8*b + r` maps to
`8*b + (7 - r)`.  This is an involution; the Motorola bit walk from `p` is
`motFlip (motFlip p + i)` for step `i`. -/
def motFlip (p : Nat) : Nat := 8 * (p / 8) + (7 - p % 8)

/-- Frame bit position holding raw-value bit `i` (LSB is `i = 0`) of signal
`s`, for `i < s.length`. -/
def sigBitPos (s : Signal) (i : Nat) : Nat :=
  match s.order with
  | .little => s.start_bit + i
  | .big => motFlip (motFlip s.start_bit + (s.length - 1 - i))

/-- All frame bit positions claimed by signal `s`, in raw-bit order. -/
def sigPositions (s : Signal) : List Nat :=
  (List.range s.length).map (sigBitPos s)

/-- Inject the unsigned raw pattern `u` into an all-zero frame at `s`'s bit
positions. -/
def encodeBits (s : Signal) (u : Nat) : Nat → Bool :=
  fun p => (List.range s.length).any fun i => sigBitPos s i == p && u.testBit i

/-- Extract `s`'s unsigned raw pattern from frame `f`. -/
def decodeBitsU (s : Signal) (f : Nat → Bool) : Nat :=
  ∑ i in Finset.range s.length, if f (sigBitPos s i) then 2 ^ i else 0

/-- Encode a raw integer into frame bits: signed values are reduced to
their two's-complement pattern modulo `2 ^ length` first (spec §4.5). -/
def encode_bits (s : Signal) (r : Int) : Nat → Bool :=
  encodeBits s ((r % ((2 : Int) ^ s.length)).toNat)

/-- Decode frame bits to a raw integer, interpreting the extracted pattern
as two's-complement when the signal is signed (spec §4.5). -/
def decode (s : Signal) (f : Nat → Bool) : Int :=
  let u := decodeBitsU s f
  if s.is_signed && u.testBit (s.length - 1) then (u : Int) - 2 ^ s.length
  else (u : Int)

/-- The raw integers representable by `s` given its bit length and sign. -/
def rawInRange (s : Signal) (r : Int) : Prop :=
  if s.is_signed then -((2 : Int) ^ (s.length - 1)) ≤ r ∧ r < 2 ^ (s.length - 1)
  else 0 ≤ r ∧ r < 2 ^ s.length

instance rawInRangeDecidable (s : Signal) (r : Int) : Decidable (rawInRange s r) := by
  unfold rawInRange
  infer_instance

/-- Clamp a physical value to the signal's declared `[min, max]` range
(spec §4.5). -/
def physicalClamp (s : Signal) (v : ℚ) : ℚ :=
  max s.phys_min (min s.phys_max v)

/-- Clamp a raw integer to the representable bound given length and sign
(spec §4.5). -/
def rawBoundClamp (s : Signal) (z : Int) : Int :=
  if s.is_signed then
    max (-((2 : Int) ^ (s.length - 1))) (min ((2 : Int) ^ (s.length - 1) - 1) z)
  else max 0 (min ((2 : Int) ^ s.length - 1) z)

/-- Encode path of the generated code (spec §4.5): physical value, clamped
to `[min, max]`, converted by `round((v - offset) / scale)`, clamped to the
representable raw bound, packed into frame bits.  Physical values are
modelled as rationals. -/
def encode_physical (s : Signal) (v : ℚ) : Nat → Bool :=
  encode_bits s (rawBoundClamp s (round ((physicalClamp s v - s.offset) / s.scale)))

/-- Decode path of the generated code (spec §4.5):
`physical = raw * scale + offset`. -/
def decode_physical (s : Signal) (f : Nat → Bool) : ℚ :=
  (decode s f : ℚ) * s.scale + s.offset

/-- The `Throttle` signal of the spec's end-to-end example (§8): unsigned
8-bit little-endian, start bit 0, scale 0.4 (the rational 2/5), offset 0,
physical range [0, 100]. -/
def throttleSig : Signal :=
  ⟨"Throttle", 0, 8, .little, false, 2 / 5, 0, 0, 100, "%", none⟩

/-- The `CONTROL_CMD` raw message of the spec's end-to-end example (§8):
id 0x1, sender `MAB`, 8 bytes, one `Throttle` signal. -/
def controlCmdRaw : RawMessage :=
  ⟨1, "CONTROL_CMD", 8, "MAB", [throttleSig]⟩

/-! ### Metadata extractor

Modelled from the spec (§4.2, §3, §7): `extract_dbc_meta` is not under
`src/`.  Steps: blacklist filtering (exact match on name or id), the
classification mode per §3's mutual-exclusion rule with the explicit id
list preferred when both modes are supplied, id-token normalization from
decimal or hexadecimal textual form, schema validation (bit ranges fit the
message length, no overlapping bit ranges, unique ids post-filtering), then
the Protocol Model stamped with the car type. -/

/-- Value of a decimal digit character. -/
def digitVal (c : Char) : Option Nat :=
  if c.isDigit then some (c.toNat - 48) else none

/-- Value of a hexadecimal digit character. -/
def hexVal (c : Char) : Option Nat :=
  if c.isDigit then some (c.toNat - 48)
  else if 97 ≤ c.toNat ∧ c.toNat ≤ 102 then some (c.toNat - 87)
  else if 65 ≤ c.toNat ∧ c.toNat ≤ 70 then some (c.toNat - 55)
  else none

/-- Fold a non-empty digit string in the given base. -/
def parseDigits (base : Nat) (val : Char → Option Nat) (cs : List Char) : Option Nat :=
  if cs.isEmpty then none
  else cs.foldl (fun acc c => acc.bind fun a => (val c).map fun d => a * base + d)
    (some 0)

/-- Normalize one message-id token, accepted in decimal or hexadecimal
textual form (spec §4.2 step 2). -/
def parseId (s : String) : Option Nat :=
  match s.toList with
  | '0' :: 'x' :: rest => parseDigits 16 hexVal rest
  | '0' :: 'X' :: rest => parseDigits 16 hexVal rest
  | cs => parseDigits 10 digitVal cs

/-- Normalize a whole id list; `none` on any invalid id-list token
(`ConfigurationError`, spec §7). -/
def normIds (tokens : List String) : Option (List Nat) :=
  tokens.mapM parseId

/-- A raw message is blacklisted when its name or its id appears in the
blacklist (spec §4.2 step 1, exact match). -/
def blacklisted (bl : List String) (m : RawMessage) : Bool :=
  bl.any fun e => e == m.name || parseId e == some m.id

/-- Two signals overlap when they claim a common frame bit position. -/
def sigsOverlap (a b : Signal) : Bool :=
  (sigPositions a).any fun p => (sigPositions b).contains p

/-- No two signals of the list claim overlapping bit ranges. -/
def pairwiseDisjoint : List Signal → Bool
  | [] => true
  | s :: rest => rest.all (fun t => !(sigsOverlap s t)) && pairwiseDisjoint rest

/-- Schema validity of one message (spec §3 invariant and §4.2 step 3):
every signal's bit range fits the declared byte length and signals are
pairwise non-overlapping. -/
def msgValid (m : RawMessage) : Bool :=
  m.signals.all (fun s => decide (s.start_bit + s.length ≤ 8 * m.length))
    && pairwiseDisjoint m.signals

/-- The active classification mode (spec §3). -/
inductive ClassMode where
  | byIds : List Nat → ClassMode
  | bySender : String → ClassMode
deriving DecidableEq, Repr

/-- Control classification of one raw message under the active mode. -/
def classControl : ClassMode → RawMessage → Bool
  | .byIds ids, m => ids.contains m.id
  | .bySender n, m => m.sender == n

/-- Stamp a raw message with its classification flag. -/
def mkMessage (m : RawMessage) (ctrl : Bool) : Message :=
  ⟨m.id, m.name, m.length, m.sender, ctrl, m.signals⟩

/-- The extraction error taxonomy relevant to this component (spec §7). -/
inductive ExtractErr where
  | configurationError : ExtractErr
  | schemaError : ExtractErr
deriving DecidableEq, Repr

/-- Modelled from the spec: the metadata extractor contract of §4.2.
Classification mode: the explicit id list is preferred when both modes are
supplied (§3); an unparseable id token or the absence of both modes is a
`ConfigurationError`; schema violations are `SchemaError`. -/
def extract (raws : List RawMessage) (car_type : String) (blacklist : List String)
    (sender_list : List String) (sender : Option String) :
    Except ExtractErr ProtocolModel :=
  let mode : Option ClassMode :=
    if sender_list.isEmpty then sender.map ClassMode.bySender
    else (normIds sender_list).map ClassMode.byIds
  match mode with
  | none => .error .configurationError
  | some md =>
    let survivors := raws.filter fun m => !(blacklisted blacklist m)
    if survivors.all msgValid && decide (survivors.map RawMessage.id).Nodup then
      .ok ⟨car_type, survivors.map fun m => mkMessage m (classControl md m)⟩
    else .error .schemaError

/-! ### Model store

Modelled from the spec (§4.3): the model store is not under `src/`.  `save`
serializes to a stable line-oriented form with messages sorted by numeric
id ascending and signals within a message sorted by start bit ascending;
`load` parses the lines back, `none` on structurally invalid content. -/

/-- Insert `x` into `l` before the first element not below it. -/
def insertLe {α : Type} (le : α → α → Bool) (x : α) : List α → List α
  | [] => [x]
  | y :: ys => if le x y then x :: y :: ys else y :: insertLe le x ys

/-- Insertion sort by the boolean order `le`. -/
def sortLe {α : Type} (le : α → α → Bool) : List α → List α
  | [] => []
  | x :: xs => insertLe le x (sortLe le xs)

/-- Adjacent elements are ordered by `le` throughout the list. -/
def sortedByLe {α : Type} (le : α → α → Bool) : List α → Bool
  | [] => true
  | [_] => true
  | x :: y :: rest => le x y && sortedByLe le (y :: rest)

/-- Canonical form of one message: signals sorted by start bit ascending. -/
def canonMessage (m : Message) : Message :=
  { m with signals := sortLe (fun a b => decide (a.start_bit ≤ b.start_bit)) m.signals }

/-- Canonical message list: canonical messages sorted by id ascending. -/
def canonMessages (l : List Message) : List Message :=
  sortLe (fun a b => decide (a.id ≤ b.id)) (l.map canonMessage)

/-- One line of the stored textual form. -/
inductive StoreLine where
  | meta : String → StoreLine
  | msg : Nat → String → Nat → String → Bool → StoreLine
  | sig : Signal → StoreLine
deriving DecidableEq, Repr

/-- The lines of one message: a header line followed by its signal lines. -/
def serializeMsg (m : Message) : List StoreLine :=
  .msg m.id m.name m.length m.sender m.is_control :: m.signals.map .sig

/-- `save` (spec §4.3): metadata line, then each message in canonical
order. -/
def save (m : ProtocolModel) : List StoreLine :=
  .meta m.car_type :: (canonMessages m.messages).flatMap serializeMsg

/-- One right-to-left parsing step of `load`: signal lines pile onto the
pending-signal stack, a message header consumes the stack. -/
def storeStep (l : StoreLine) (acc : Option (List Signal × List Message)) :
    Option (List Signal × List Message) :=
  match acc, l with
  | some (stack, msgs), .sig s => some (s :: stack, msgs)
  | some (stack, msgs), .msg i n len snd ic => some ([], ⟨i, n, len, snd, ic, stack⟩ :: msgs)
  | _, _ => none

/-- `load` (spec §4.3): the exact inverse of the stored form; `none` on
structurally invalid content (missing metadata line, signal line before any
message header, stray metadata line). -/
def load (ls : List StoreLine) : Option ProtocolModel :=
  match ls with
  | .meta ct :: body =>
    match body.foldr storeStep (some ([], [])) with
    | some ([], msgs) => some ⟨ct, msgs⟩
    | _ => none
  | _ => none

/-! ## Theorems -/

/-- Exhaustive case shape of a `mainRun` execution: usage error when both
classification options are missing, `sys.exit(1)` on an invalid list token,
or a single extraction call followed (on success only) by the three
generator calls. -/
theorem mainRun_shape {V : Type} (eV : V) (lE : String → Option V)
    (eM : ExtractCall V → Bool) (a : Args) :
    ((a.sender.isNone && a.sender_list.isNone) = true ∧
      mainRun eV lE eM a = ⟨.parserUsageError, [], [], [], [], []⟩) ∨
    mainRun eV lE eM a = ⟨.sysExit 1, [], [], [], [], [.invalidListFormat]⟩ ∨
    (∃ bl sl, lE a.black_list = some bl ∧
      ((eM ⟨a.dbc_file, "dbc.yml", a.car_type, bl, sl, a.sender⟩ = true ∧
        mainRun eV lE eM a =
          ⟨.normalReturn, [⟨a.dbc_file, "dbc.yml", a.car_type, bl, sl, a.sender⟩],
           [("dbc.yml", a.output_dir ++ "proto/")],
           [("dbc.yml", a.output_dir ++ "vehicle/" ++ a.car_type.toLower ++ "/protocol/")],
           [("dbc.yml", a.output_dir ++ "vehicle/" ++ a.car_type.toLower ++ "/")], []⟩) ∨
       (eM ⟨a.dbc_file, "dbc.yml", a.car_type, bl, sl, a.sender⟩ = false ∧
        mainRun eV lE eM a =
          ⟨.normalReturn, [⟨a.dbc_file, "dbc.yml", a.car_type, bl, sl, a.sender⟩],
           [], [], [], [.failedExtractMeta]⟩))) := by
  unfold mainRun
  by_cases h : (a.sender.isNone && a.sender_list.isNone) = true
  · exact Or.inl ⟨h, by simp [h]⟩
  · rw [if_neg h]
    cases hbl : lE a.black_list with
    | none => exact Or.inr (Or.inl rfl)
    | some bl =>
      cases hsl : (match a.sender_list with
                   | some s => if s ≠ "" then lE s else some eV
                   | none => some eV) with
      | none => exact Or.inr (Or.inl rfl)
      | some sl =>
        refine Or.inr (Or.inr ⟨bl, sl, rfl, ?_⟩)
        cases heM : eM ⟨a.dbc_file, "dbc.yml", a.car_type, bl, sl, a.sender⟩ with
        | true => exact Or.inl ⟨rfl, by simp [heM]⟩
        | false => exact Or.inr ⟨rfl, by simp [heM]⟩

/-- C1: in every run where the extraction stage reports failure
(`extract_dbc_meta` falsy on the call `main` made), `main` prints the
failure diagnostic and returns before invoking any of the three generators,
so no generated artifact tree is produced. -/
theorem extract_failure_aborts_generators {V : Type} (eV : V)
    (lE : String → Option V) (eM : ExtractCall V → Bool) (a : Args)
    (c : ExtractCall V)
    (hc : (mainRun eV lE eM a).extractCalls = [c])
    (hf : eM c = false) :
    (mainRun eV lE eM a).genProtoCalls = [] ∧
    (mainRun eV lE eM a).genProtocolsCalls = [] ∧
    (mainRun eV lE eM a).genVehicleCalls = [] ∧
    Diag.failedExtractMeta ∈ (mainRun eV lE eM a).stderrDiags := by
  rcases mainRun_shape eV lE eM a with ⟨-, h⟩ | h | ⟨bl, sl, -, ⟨ht, h⟩ | ⟨-, h⟩⟩
  · rw [h] at hc; cases hc
  · rw [h] at hc; cases hc
  · rw [h] at hc
    simp only [List.cons.injEq, and_true] at hc
    rw [← hc] at hf
    rw [hf] at ht
    exact Bool.noConfusion ht
  · rw [h]
    exact ⟨rfl, rfl, rfl, List.mem_singleton.mpr rfl⟩

/-- Witness for C1 at a concrete run: extraction fails, no generator is
invoked, the diagnostic is printed. -/
theorem extract_failure_aborts_generators_witness :
    (mainRun ([] : List String) pyListEval (fun _ => false)
        ⟨"x.dbc", "CAR", some "MAB", none, "[]", "output/"⟩).extractCalls =
      [⟨"x.dbc", "dbc.yml", "CAR", [], [], some "MAB"⟩] ∧
    (fun _ : ExtractCall (List String) => false)
        ⟨"x.dbc", "dbc.yml", "CAR", [], [], some "MAB"⟩ = false ∧
    ((mainRun ([] : List String) pyListEval (fun _ => false)
        ⟨"x.dbc", "CAR", some "MAB", none, "[]", "output/"⟩).genProtoCalls = [] ∧
     (mainRun ([] : List String) pyListEval (fun _ => false)
        ⟨"x.dbc", "CAR", some "MAB", none, "[]", "output/"⟩).genProtocolsCalls = [] ∧
     (mainRun ([] : List String) pyListEval (fun _ => false)
        ⟨"x.dbc", "CAR", some "MAB", none, "[]", "output/"⟩).genVehicleCalls = [] ∧
     Diag.failedExtractMeta ∈ (mainRun ([] : List String) pyListEval (fun _ => false)
        ⟨"x.dbc", "CAR", some "MAB", none, "[]", "output/"⟩).stderrDiags) :=
  ⟨by decide, rfl,
   extract_failure_aborts_generators ([] : List String) pyListEval (fun _ => false)
     ⟨"x.dbc", "CAR", some "MAB", none, "[]", "output/"⟩
     ⟨"x.dbc", "dbc.yml", "CAR", [], [], some "MAB"⟩ (by decide) rfl⟩

/-- C2: when neither `--sender` nor `--sender_list` is supplied, `main`
fails through `parser.error` (a usage/configuration error, exit status 2)
before any list parsing or extraction work: no extraction call and no
generator call happens. -/
theorem missing_mode_is_config_error {V : Type} (eV : V)
    (lE : String → Option V) (eM : ExtractCall V → Bool) (a : Args)
    (hs : a.sender = none) (hl : a.sender_list = none) :
    (mainRun eV lE eM a).outcome = RunOutcome.parserUsageError ∧
    (mainRun eV lE eM a).extractCalls = [] ∧
    (mainRun eV lE eM a).genProtoCalls = [] ∧
    (mainRun eV lE eM a).genProtocolsCalls = [] ∧
    (mainRun eV lE eM a).genVehicleCalls = [] := by
  simp [mainRun, hs, hl]

/-- Witness for C2 at a concrete argument record with neither mode. -/
theorem missing_mode_is_config_error_witness :
    (⟨"x.dbc", "CAR", none, none, "[]", "output/"⟩ : Args).sender = none ∧
    (⟨"x.dbc", "CAR", none, none, "[]", "output/"⟩ : Args).sender_list = none ∧
    ((mainRun ([] : List String) pyListEval (fun _ => true)
        ⟨"x.dbc", "CAR", none, none, "[]", "output/"⟩).outcome =
      RunOutcome.parserUsageError ∧
     (mainRun ([] : List String) pyListEval (fun _ => true)
        ⟨"x.dbc", "CAR", none, none, "[]", "output/"⟩).extractCalls = [] ∧
     (mainRun ([] : List String) pyListEval (fun _ => true)
        ⟨"x.dbc", "CAR", none, none, "[]", "output/"⟩).genProtoCalls = [] ∧
     (mainRun ([] : List String) pyListEval (fun _ => true)
        ⟨"x.dbc", "CAR", none, none, "[]", "output/"⟩).genProtocolsCalls = [] ∧
     (mainRun ([] : List String) pyListEval (fun _ => true)
        ⟨"x.dbc", "CAR", none, none, "[]", "output/"⟩).genVehicleCalls = []) :=
  ⟨rfl, rfl,
   missing_mode_is_config_error ([] : List String) pyListEval (fun _ => true)
     ⟨"x.dbc", "CAR", none, none, "[]", "output/"⟩ rfl rfl⟩

/-- C3: whenever the codec (protocol) generator is invoked, its destination
is `output_dir + "vehicle/" + car_type.lower() + "/protocol/"`, and whenever
the controller/manager generator is invoked, its destination is
`output_dir + "vehicle/" + car_type.lower() + "/"`. -/
theorem generator_destinations_nested {V : Type} (eV : V)
    (lE : String → Option V) (eM : ExtractCall V → Bool) (a : Args) :
    ((mainRun eV lE eM a).genProtocolsCalls.all fun p =>
      p.2 == a.output_dir ++ "vehicle/" ++ a.car_type.toLower ++ "/protocol/") = true ∧
    ((mainRun eV lE eM a).genVehicleCalls.all fun p =>
      p.2 == a.output_dir ++ "vehicle/" ++ a.car_type.toLower ++ "/") = true := by
  rcases mainRun_shape eV lE eM a with ⟨-, h⟩ | h | ⟨bl, sl, -, ⟨-, h⟩ | ⟨-, h⟩⟩ <;>
    rw [h] <;> exact ⟨by simp, by simp⟩

/-- C4 as stated is false: the empty string supplied as `--sender_list` is
not evaluable as a Python literal (`pyListEval "" = none`, as in Python),
yet the run does not exit with status 1 — Python string truthiness makes
`gen.py` skip `ast.literal_eval` for it, substitute `[]`, and proceed all
the way into extraction. -/
theorem empty_sender_list_token_not_fatal :
    pyListEval "" = none ∧
    (mainRun ([] : List String) pyListEval (fun _ => true)
      ⟨"x.dbc", "CAR", none, some "", "[]", "output/"⟩).outcome ≠
        RunOutcome.sysExit 1 ∧
    (mainRun ([] : List String) pyListEval (fun _ => true)
      ⟨"x.dbc", "CAR", none, some "", "[]", "output/"⟩).extractCalls ≠ [] := by
  decide

/-- C4 amended: provided at least one classification option is supplied
(otherwise `parser.error`, exit status 2, preempts), an unevaluable
`--black_list` string, or an unevaluable non-empty `--sender_list` string,
makes the run exit with status 1 and the invalid-list diagnostic before any
extraction work; an empty `--sender_list` string bypasses evaluation and is
treated as the empty list instead. -/
theorem invalid_list_token_exits_one {V : Type} (eV : V)
    (lE : String → Option V) (eM : ExtractCall V → Bool) (a : Args)
    (hmode : ¬(a.sender = none ∧ a.sender_list = none))
    (hbad : lE a.black_list = none ∨
      ∃ s, a.sender_list = some s ∧ s ≠ "" ∧ lE s = none) :
    (mainRun eV lE eM a).outcome = RunOutcome.sysExit 1 ∧
    (mainRun eV lE eM a).extractCalls = [] ∧
    Diag.invalidListFormat ∈ (mainRun eV lE eM a).stderrDiags := by
  have hcond : (a.sender.isNone && a.sender_list.isNone) = false := by
    rcases hmode' : a.sender with - | s <;> rcases hmode'' : a.sender_list with - | t <;>
      simp_all
  rcases hbad with hbl | ⟨s, hsl, hne, hev⟩
  · simp [mainRun, hcond, hbl]
  · cases hbl : lE a.black_list with
    | none => simp [mainRun, hcond, hbl]
    | some bl => simp [mainRun, hcond, hbl, hsl, hne, hev]

/-- Witness for the amended C4 at a concrete run: `--black_list "[bad"` is
unevaluable, the run exits with status 1 before extraction. -/
theorem invalid_list_token_exits_one_witness :
    ¬((⟨"x.dbc", "CAR", some "MAB", none, "[bad", "output/"⟩ : Args).sender = none ∧
      (⟨"x.dbc", "CAR", some "MAB", none, "[bad", "output/"⟩ : Args).sender_list = none) ∧
    (pyListEval "[bad" = none ∨
      ∃ s, (⟨"x.dbc", "CAR", some "MAB", none, "[bad", "output/"⟩ : Args).sender_list =
        some s ∧ s ≠ "" ∧ pyListEval s = none) ∧
    ((mainRun ([] : List String) pyListEval (fun _ => true)
        ⟨"x.dbc", "CAR", some "MAB", none, "[bad", "output/"⟩).outcome =
      RunOutcome.sysExit 1 ∧
     (mainRun ([] : List String) pyListEval (fun _ => true)
        ⟨"x.dbc", "CAR", some "MAB", none, "[bad", "output/"⟩).extractCalls = [] ∧
     Diag.invalidListFormat ∈ (mainRun ([] : List String) pyListEval (fun _ => true)
        ⟨"x.dbc", "CAR", some "MAB", none, "[bad", "output/"⟩).stderrDiags) :=
  ⟨by decide, Or.inl (by decide),
   invalid_list_token_exits_one ([] : List String) pyListEval (fun _ => true)
     ⟨"x.dbc", "CAR", some "MAB", none, "[bad", "output/"⟩
     (by decide) (Or.inl (by decide))⟩

/-- C9: every collaborator call of every run receives the single literal
Protocol Model path `"dbc.yml"` — the extraction stage and all three
generators read the same model source, independent of `--output_dir`. -/
theorem conf_file_is_dbc_yml {V : Type} (eV : V)
    (lE : String → Option V) (eM : ExtractCall V → Bool) (a : Args) :
    ((mainRun eV lE eM a).extractCalls.all fun c => c.conf_file == "dbc.yml") = true ∧
    ((mainRun eV lE eM a).genProtoCalls.all fun p => p.1 == "dbc.yml") = true ∧
    ((mainRun eV lE eM a).genProtocolsCalls.all fun p => p.1 == "dbc.yml") = true ∧
    ((mainRun eV lE eM a).genVehicleCalls.all fun p => p.1 == "dbc.yml") = true := by
  rcases mainRun_shape eV lE eM a with ⟨-, h⟩ | h | ⟨bl, sl, -, ⟨-, h⟩ | ⟨-, h⟩⟩ <;>
    rw [h] <;> exact ⟨by simp, by simp, by simp, by simp⟩

/-- C10: when the extraction stage reports failure, `main` ends by a plain
`return` after printing the diagnostic: the outcome is a normal return, not
a raised exception and not a nonzero-status process exit, so at this layer
the abort is indistinguishable from success by exit status. -/
theorem extract_failure_returns_normally {V : Type} (eV : V)
    (lE : String → Option V) (eM : ExtractCall V → Bool) (a : Args)
    (c : ExtractCall V)
    (hc : (mainRun eV lE eM a).extractCalls = [c])
    (hf : eM c = false) :
    (mainRun eV lE eM a).outcome = RunOutcome.normalReturn ∧
    Diag.failedExtractMeta ∈ (mainRun eV lE eM a).stderrDiags := by
  rcases mainRun_shape eV lE eM a with ⟨-, h⟩ | h | ⟨bl, sl, -, ⟨ht, h⟩ | ⟨-, h⟩⟩
  · rw [h] at hc; cases hc
  · rw [h] at hc; cases hc
  · rw [h] at hc
    simp only [List.cons.injEq, and_true] at hc
    rw [← hc] at hf
    rw [hf] at ht
    exact Bool.noConfusion ht
  · rw [h]
    exact ⟨rfl, List.mem_singleton.mpr rfl⟩

/-- Witness for C10 at a concrete failing run. -/
theorem extract_failure_returns_normally_witness :
    (mainRun ([] : List String) pyListEval (fun _ => false)
        ⟨"y.dbc", "CAR2", some "ECU", none, "[]", "output/"⟩).extractCalls =
      [⟨"y.dbc", "dbc.yml", "CAR2", [], [], some "ECU"⟩] ∧
    (fun _ : ExtractCall (List String) => false)
        ⟨"y.dbc", "dbc.yml", "CAR2", [], [], some "ECU"⟩ = false ∧
    ((mainRun ([] : List String) pyListEval (fun _ => false)
        ⟨"y.dbc", "CAR2", some "ECU", none, "[]", "output/"⟩).outcome =
      RunOutcome.normalReturn ∧
     Diag.failedExtractMeta ∈ (mainRun ([] : List String) pyListEval (fun _ => false)
        ⟨"y.dbc", "CAR2", some "ECU", none, "[]", "output/"⟩).stderrDiags) :=
  ⟨by decide, rfl,
   extract_failure_returns_normally ([] : List String) pyListEval (fun _ => false)
     ⟨"y.dbc", "CAR2", some "ECU", none, "[]", "output/"⟩
     ⟨"y.dbc", "dbc.yml", "CAR2", [], [], some "ECU"⟩ (by decide) rfl⟩

/-- C5: when both a sender name and a non-empty explicit id list are
supplied, extraction classifies by the id list alone — every surviving
message's `is_control` equals membership of its id in the normalized list —
and the sender argument has no effect on the result (spec-modelled
extractor). -/
theorem both_modes_prefer_id_list (raws : List RawMessage) (ct : String)
    (bl : List String) (sl : List String) (snd snd2 : String)
    (ids : List Nat) (pm : ProtocolModel)
    (hsl : sl ≠ [])
    (hids : normIds sl = some ids)
    (hok : extract raws ct bl sl (some snd) = .ok pm) :
    (pm.messages.all fun ms => ms.is_control == ids.contains ms.id) = true ∧
    extract raws ct bl sl (some snd2) = extract raws ct bl sl (some snd) ∧
    extract raws ct bl sl none = extract raws ct bl sl (some snd) := by
  have hempty : sl.isEmpty = false := by
    cases sl with
    | nil => exact absurd rfl hsl
    | cons x xs => rfl
  refine ⟨?_, ?_, ?_⟩
  · simp only [extract, hempty, hids, Bool.false_eq_true, if_false,
      Option.map_some'] at hok
    by_cases hv : ((raws.filter fun m => !blacklisted bl m).all msgValid &&
        decide ((raws.filter fun m => !blacklisted bl m).map RawMessage.id).Nodup) = true
    · rw [if_pos hv] at hok
      cases hok
      refine List.all_eq_true.mpr ?_
      intro m hm
      obtain ⟨raw, hraw, rfl⟩ := List.mem_map.mp hm
      simp [mkMessage, classControl]
    · rw [if_neg hv] at hok
      cases hok
  · simp only [extract, hempty, Bool.false_eq_true, if_false]
  · simp only [extract, hempty, Bool.false_eq_true, if_false]

/-- Witness for C5 at a concrete run: two messages, id list `["0x1"]`,
conflicting sender names; classification follows the id list. -/
theorem both_modes_prefer_id_list_witness :
    (["0x1"] : List String) ≠ [] ∧
    normIds ["0x1"] = some [1] ∧
    extract [⟨1, "A", 8, "MAB", []⟩, ⟨2, "B", 8, "OTHER", []⟩] "CAR" [] ["0x1"]
        (some "MAB") =
      .ok ⟨"CAR", [⟨1, "A", 8, "MAB", true, []⟩, ⟨2, "B", 8, "OTHER", false, []⟩]⟩ ∧
    (((⟨"CAR", [⟨1, "A", 8, "MAB", true, []⟩, ⟨2, "B", 8, "OTHER", false, []⟩]⟩ :
        ProtocolModel).messages.all fun ms =>
          ms.is_control == ([1] : List Nat).contains ms.id) = true ∧
     extract [⟨1, "A", 8, "MAB", []⟩, ⟨2, "B", 8, "OTHER", []⟩] "CAR" [] ["0x1"]
        (some "ZZZ") =
       extract [⟨1, "A", 8, "MAB", []⟩, ⟨2, "B", 8, "OTHER", []⟩] "CAR" [] ["0x1"]
        (some "MAB") ∧
     extract [⟨1, "A", 8, "MAB", []⟩, ⟨2, "B", 8, "OTHER", []⟩] "CAR" [] ["0x1"]
        none =
       extract [⟨1, "A", 8, "MAB", []⟩, ⟨2, "B", 8, "OTHER", []⟩] "CAR" [] ["0x1"]
        (some "MAB")) :=
  ⟨by decide, by decide, by rfl,
   both_modes_prefer_id_list
     [⟨1, "A", 8, "MAB", []⟩, ⟨2, "B", 8, "OTHER", []⟩] "CAR" [] ["0x1"]
     "MAB" "ZZZ" [1]
     ⟨"CAR", [⟨1, "A", 8, "MAB", true, []⟩, ⟨2, "B", 8, "OTHER", false, []⟩]⟩
     (by decide) (by decide) (by rfl)⟩

/-- The byte-internal bit reflection is an involution. -/
theorem motFlip_motFlip (p : Nat) : motFlip (motFlip p) = p := by
  unfold motFlip
  omega

/-- Distinct raw-bit indices of a signal occupy distinct frame bit
positions, for both byte orders. -/
theorem sigBitPos_injOn (s : Signal) {i j : Nat} (hi : i < s.length)
    (hj : j < s.length) (h : sigBitPos s i = sigBitPos s j) : i = j := by
  rcases s with ⟨nm, sb, len, order, sgn, sc, off, mn, mx, un, vt⟩
  simp only at hi hj
  cases order with
  | little =>
    simp only [sigBitPos] at h
    omega
  | big =>
    simp only [sigBitPos] at h
    have h2 := congrArg motFlip h
    rw [motFlip_motFlip, motFlip_motFlip] at h2
    omega

/-- The frame produced by `encodeBits` holds raw bit `i` at the signal's
`i`-th bit position. -/
theorem encodeBits_at_pos (s : Signal) (u : Nat) {i : Nat} (hi : i < s.length) :
    encodeBits s u (sigBitPos s i) = u.testBit i := by
  unfold encodeBits
  cases htb : u.testBit i with
  | true =>
    refine List.any_eq_true.mpr ⟨i, List.mem_range.mpr hi, ?_⟩
    simp [htb]
  | false =>
    refine List.any_eq_false.mpr ?_
    intro j hj
    simp only [List.mem_range] at hj
    simp only [Bool.and_eq_true, beq_iff_eq, not_and]
    intro hpos htbj
    rw [sigBitPos_injOn s hj hi hpos, htb] at htbj
    exact Bool.noConfusion htbj

/-- Summing the powers of two selected by the low `n` bits of `u` recovers
`u` modulo `2 ^ n`. -/
theorem sum_testBit_two_pow (u n : Nat) :
    (∑ i in Finset.range n, if u.testBit i then 2 ^ i else 0) = u % 2 ^ n := by
  induction n with
  | zero => simp [Nat.mod_one]
  | succ k ih =>
    rw [Finset.sum_range_succ, ih, pow_succ, Nat.mod_mul]
    have h2 : u.testBit k = decide (u / 2 ^ k % 2 = 1) := Nat.testBit_to_div_mod
    rcases Nat.mod_two_eq_zero_or_one (u / 2 ^ k) with h | h <;> simp [h2, h]

/-- Unsigned bit-pattern round trip through a signal's bit layout. -/
theorem decodeBitsU_encodeBits (s : Signal) (u : Nat) (hu : u < 2 ^ s.length) :
    decodeBitsU s (encodeBits s u) = u := by
  unfold decodeBitsU
  have hcong : ∀ i ∈ Finset.range s.length,
      (if encodeBits s u (sigBitPos s i) then 2 ^ i else 0) =
      (if u.testBit i then 2 ^ i else 0) := by
    intro i hi
    rw [encodeBits_at_pos s u (Finset.mem_range.mp hi)]
  rw [Finset.sum_congr rfl hcong, sum_testBit_two_pow, Nat.mod_eq_of_lt hu]

/-- C7: for every signal `s` and every raw integer `r` within `s`'s
representable range (given bit length and sign), decoding the frame bits
produced by encoding `r` yields `r` again, under the declared byte order
(little-endian LSB-first, big-endian in DBC Motorola bit numbering) and
two's-complement interpretation for signed signals. -/
theorem decode_encode_bits_roundtrip (s : Signal) (r : Int)
    (hlen : 1 ≤ s.length) (hr : rawInRange s r) :
    decode s (encode_bits s r) = r := by
  cases hsgn : s.is_signed with
  | false =>
    simp only [rawInRange, hsgn, Bool.false_eq_true, if_false] at hr
    have hcast : ((2 : Int) ^ s.length) = ((2 ^ s.length : Nat) : Int) := by
      push_cast
      ring
    have hmod : r % (2 : Int) ^ s.length = r := Int.emod_eq_of_lt hr.1 hr.2
    have hu : r.toNat < 2 ^ s.length := by
      have h1 : (r.toNat : Int) = r := Int.toNat_of_nonneg hr.1
      have h2 : (r.toNat : Int) < ((2 ^ s.length : Nat) : Int) := by
        rw [h1, ← hcast]
        exact hr.2
      exact_mod_cast h2
    unfold decode encode_bits
    rw [hmod, decodeBitsU_encodeBits s r.toNat hu, hsgn]
    simp [Int.toNat_of_nonneg hr.1]
  | true =>
    simp only [rawInRange, hsgn, if_true] at hr
    have hLM : s.length = (s.length - 1) + 1 := by omega
    have h2L : (2 : Nat) ^ s.length = 2 * 2 ^ (s.length - 1) := by
      conv_lhs => rw [hLM]
      rw [pow_succ]
      ring
    have h2LI : (2 : Int) ^ s.length = 2 * 2 ^ (s.length - 1) := by
      conv_lhs => rw [hLM]
      rw [pow_succ]
      ring
    have hKpos : (0 : Int) < 2 ^ (s.length - 1) := by positivity
    rcases le_or_lt 0 r with hr0 | hr0
    · -- nonnegative: pattern is r itself, top bit clear
      have hrlt : r < (2 : Int) ^ s.length := by
        rw [h2LI]
        omega
      have hmod : r % (2 : Int) ^ s.length = r := Int.emod_eq_of_lt hr0 hrlt
      have huK : r.toNat < 2 ^ (s.length - 1) := by
        have h1 : (r.toNat : Int) = r := Int.toNat_of_nonneg hr0
        have h2 : (r.toNat : Int) < ((2 ^ (s.length - 1) : Nat) : Int) := by
          rw [h1]
          push_cast
          exact hr.2
        exact_mod_cast h2
      have hu : r.toNat < 2 ^ s.length := by
        rw [h2L]
        omega
      have htop : r.toNat.testBit (s.length - 1) = false :=
        Nat.testBit_lt_two_pow huK
      unfold decode encode_bits
      rw [hmod, decodeBitsU_encodeBits s r.toNat hu, hsgn]
      simp [htop, Int.toNat_of_nonneg hr0]
    · -- negative: pattern is r + 2^length, top bit set
      have hge : (2 : Int) ^ (s.length - 1) ≤ r + 2 ^ s.length := by
        rw [h2LI]
        omega
      have hlt : r + (2 : Int) ^ s.length < 2 ^ s.length := by omega
      have hnn : (0 : Int) ≤ r + 2 ^ s.length := by
        have := hKpos
        omega
      have hmod : r % (2 : Int) ^ s.length = r + 2 ^ s.length := by
        have h1 := Int.add_mul_emod_self_left r ((2 : Int) ^ s.length) 1
        rw [mul_one] at h1
        rw [← h1]
        exact Int.emod_eq_of_lt hnn hlt
      set u : Nat := (r + 2 ^ s.length).toNat with hudef
      have huI : (u : Int) = r + 2 ^ s.length := Int.toNat_of_nonneg hnn
      have huK : 2 ^ (s.length - 1) ≤ u := by
        have h2 : ((2 ^ (s.length - 1) : Nat) : Int) ≤ (u : Int) := by
          rw [huI]
          push_cast
          exact hge
        exact_mod_cast h2
      have hu : u < 2 ^ s.length := by
        have h2 : (u : Int) < ((2 ^ s.length : Nat) : Int) := by
          rw [huI]
          push_cast
          exact hlt
        exact_mod_cast h2
      have hdiv : u / 2 ^ (s.length - 1) = 1 := by
        refine Nat.div_eq_of_lt_le ?_ ?_
        · omega
        · rw [h2L] at hu
          omega
      have htop : u.testBit (s.length - 1) = true := by
        rw [Nat.testBit_to_div_mod, hdiv]
        rfl
      unfold decode encode_bits
      rw [hmod, decodeBitsU_encodeBits s u hu, hsgn]
      simp only [htop, Bool.and_self, if_true]
      rw [huI]
      ring

/-- Witness for C7 at a concrete big-endian signed signal (start bit 7,
10 bits, Motorola order) and the in-range raw value `-3`. -/
theorem decode_encode_bits_roundtrip_witness :
    1 ≤ (⟨"S", 7, 10, .big, true, 1, 0, 0, 0, "", none⟩ : Signal).length ∧
    rawInRange (⟨"S", 7, 10, .big, true, 1, 0, 0, 0, "", none⟩ : Signal) (-3) ∧
    decode (⟨"S", 7, 10, .big, true, 1, 0, 0, 0, "", none⟩ : Signal)
      (encode_bits (⟨"S", 7, 10, .big, true, 1, 0, 0, 0, "", none⟩ : Signal) (-3)) =
      -3 :=
  ⟨by decide, by decide,
   decode_encode_bits_roundtrip
     (⟨"S", 7, 10, .big, true, 1, 0, 0, 0, "", none⟩ : Signal) (-3)
     (by decide) (by decide)⟩

/-- Folding signal lines onto the parser state piles them, in order, onto
the pending-signal stack. -/
theorem foldr_storeStep_sigs (sigs : List Signal) (stack : List Signal)
    (msgs : List Message) :
    (sigs.map StoreLine.sig).foldr storeStep (some (stack, msgs)) =
      some (sigs ++ stack, msgs) := by
  induction sigs with
  | nil => rfl
  | cons s rest ih => simp [storeStep, ih]

/-- Parsing the serialized lines of a message list recovers it exactly. -/
theorem foldr_storeStep_serialize (msgs : List Message) :
    (msgs.flatMap serializeMsg).foldr storeStep (some ([], [])) =
      some ([], msgs) := by
  induction msgs with
  | nil => rfl
  | cons m rest ih =>
    rw [List.flatMap_cons, List.foldr_append, ih]
    unfold serializeMsg
    rw [List.foldr_cons, foldr_storeStep_sigs m.signals [] rest]
    simp [storeStep]

/-- `load` after `save` always yields the canonical reordering of the
model (messages sorted by id, signals sorted by start bit). -/
theorem load_save (m : ProtocolModel) :
    load (save m) = some ⟨m.car_type, canonMessages m.messages⟩ := by
  simp only [load, save, foldr_storeStep_serialize]

/-- A list whose adjacent elements are `le`-ordered in the boolean sense is
chained in the propositional sense. -/
theorem chain'_of_sortedByLe {α : Type} (le : α → α → Bool) (l : List α)
    (h : sortedByLe le l = true) :
    List.Chain' (fun a b => le a b = true) l := by
  induction l with
  | nil => exact List.chain'_nil
  | cons x xs ih =>
    cases xs with
    | nil => simp
    | cons y ys =>
      have h2 : (le x y && sortedByLe le (y :: ys)) = true := h
      rw [Bool.and_eq_true] at h2
      rw [List.chain'_cons]
      exact ⟨h2.1, ih h2.2⟩

/-- Insertion sort leaves a list fixed when adjacent elements are already
ordered. -/
theorem sortLe_eq_self {α : Type} (le : α → α → Bool) (l : List α)
    (h : List.Chain' (fun a b => le a b = true) l) : sortLe le l = l := by
  induction l with
  | nil => rfl
  | cons x xs ih =>
    cases xs with
    | nil => rfl
    | cons y ys =>
      rw [List.chain'_cons] at h
      show insertLe le x (sortLe le (y :: ys)) = x :: y :: ys
      rw [ih h.2]
      show (if le x y then x :: y :: ys else y :: insertLe le x ys) = x :: y :: ys
      rw [if_pos h.1]

/-- Mapping a function that fixes every member leaves the list fixed. -/
theorem map_eq_self_of_mem {α : Type} (f : α → α) (l : List α)
    (h : ∀ x ∈ l, f x = x) : l.map f = l := by
  induction l with
  | nil => rfl
  | cons x xs ih =>
    rw [List.map_cons, h x (by simp), ih (fun y hy => h y (by simp [hy]))]

/-- A message with its signals already sorted by start bit is fixed by
canonicalization. -/
theorem canonMessage_eq_self (ms : Message)
    (h : List.Chain' (fun a b => a.start_bit ≤ b.start_bit) ms.signals) :
    canonMessage ms = ms := by
  unfold canonMessage
  rw [sortLe_eq_self _ _ (List.Chain'.imp (fun a b hab => decide_eq_true hab) h)]

/-- A message list already in canonical order is fixed by
canonicalization. -/
theorem canonMessages_eq_self (msgs : List Message)
    (hmsgs : List.Chain' (fun a b => a.id ≤ b.id) msgs)
    (hsigs : ∀ ms ∈ msgs,
      List.Chain' (fun a b => a.start_bit ≤ b.start_bit) ms.signals) :
    canonMessages msgs = msgs := by
  unfold canonMessages
  rw [map_eq_self_of_mem canonMessage msgs
    (fun ms hms => canonMessage_eq_self ms (hsigs ms hms))]
  exact sortLe_eq_self _ _ (List.Chain'.imp (fun a b hab => decide_eq_true hab) hmsgs)

/-- C6 as stated is false: `save` sorts messages by id ascending (spec
§4.3), so a valid model whose messages are not stored in ascending id order
is not recovered identically — `load (save m)` returns the id-sorted
reordering, which differs from `m`. -/
theorem load_save_not_identity :
    load (save ⟨"car", [⟨2, "B", 8, "Y", false, []⟩, ⟨1, "A", 8, "X", true, []⟩]⟩) ≠
      some ⟨"car", [⟨2, "B", 8, "Y", false, []⟩, ⟨1, "A", 8, "X", true, []⟩]⟩ := by
  decide

/-- C6 amended: the round-trip law `load (save m) = m` (structural
equality, including message and signal ordering) holds exactly for models
already in the canonical order that `save` guarantees — messages sorted by
id ascending and each message's signals sorted by start bit ascending; in
general `load (save m)` is the canonical reordering of `m`. -/
theorem load_save_roundtrip (m : ProtocolModel)
    (hmsgs : sortedByLe (fun a b => decide (a.id ≤ b.id)) m.messages = true)
    (hsigs : (m.messages.all fun ms =>
      sortedByLe (fun a b => decide (a.start_bit ≤ b.start_bit)) ms.signals) = true) :
    load (save m) = some m := by
  have hch : List.Chain' (fun a b => a.id ≤ b.id) m.messages :=
    List.Chain'.imp (fun a b hab => of_decide_eq_true hab)
      (chain'_of_sortedByLe _ _ hmsgs)
  have hsig : ∀ ms ∈ m.messages,
      List.Chain' (fun a b => a.start_bit ≤ b.start_bit) ms.signals := by
    intro ms hms
    exact List.Chain'.imp (fun a b hab => of_decide_eq_true hab)
      (chain'_of_sortedByLe _ _ (List.all_eq_true.mp hsigs ms hms))
  rw [load_save, canonMessages_eq_self m.messages hch hsig]

/-- Witness for the amended C6 at a concrete canonical model with two
messages and sorted signals. -/
theorem load_save_roundtrip_witness :
    sortedByLe (fun a b => decide (a.id ≤ b.id))
      (⟨"car", [⟨1, "A", 8, "X", true,
          [⟨"s0", 0, 4, .little, false, 1, 0, 0, 15, "", none⟩,
           ⟨"s1", 4, 4, .little, false, 1, 0, 0, 15, "", none⟩]⟩,
        ⟨2, "B", 8, "Y", false, []⟩]⟩ : ProtocolModel).messages = true ∧
    ((⟨"car", [⟨1, "A", 8, "X", true,
          [⟨"s0", 0, 4, .little, false, 1, 0, 0, 15, "", none⟩,
           ⟨"s1", 4, 4, .little, false, 1, 0, 0, 15, "", none⟩]⟩,
        ⟨2, "B", 8, "Y", false, []⟩]⟩ : ProtocolModel).messages.all fun ms =>
      sortedByLe (fun a b => decide (a.start_bit ≤ b.start_bit)) ms.signals) = true ∧
    load (save (⟨"car", [⟨1, "A", 8, "X", true,
          [⟨"s0", 0, 4, .little, false, 1, 0, 0, 15, "", none⟩,
           ⟨"s1", 4, 4, .little, false, 1, 0, 0, 15, "", none⟩]⟩,
        ⟨2, "B", 8, "Y", false, []⟩]⟩ : ProtocolModel)) =
      some (⟨"car", [⟨1, "A", 8, "X", true,
          [⟨"s0", 0, 4, .little, false, 1, 0, 0, 15, "", none⟩,
           ⟨"s1", 4, 4, .little, false, 1, 0, 0, 15, "", none⟩]⟩,
        ⟨2, "B", 8, "Y", false, []⟩]⟩ : ProtocolModel) :=
  ⟨by decide, by decide,
   load_save_roundtrip
     (⟨"car", [⟨1, "A", 8, "X", true,
          [⟨"s0", 0, 4, .little, false, 1, 0, 0, 15, "", none⟩,
           ⟨"s1", 4, 4, .little, false, 1, 0, 0, 15, "", none⟩]⟩,
        ⟨2, "B", 8, "Y", false, []⟩]⟩ : ProtocolModel)
     (by decide) (by decide)⟩

/-- C8: the end-to-end example.  A DBC message id `0x1` (`CONTROL_CMD`,
sender `MAB`, 8 bytes) with one unsigned 8-bit little-endian signal
`Throttle` (start bit 0, scale 0.4, offset 0, range [0, 100]), extracted
with `sender = "MAB"` and empty blacklist, is classified `is_control =
true`; the generated encode path maps physical `40.0` to the frame whose
single occupied byte is `0x64`, and the decode path maps that frame back
to `40.0` (physical values modelled as rationals, so `0.4 = 2/5`). -/
theorem end_to_end_throttle_example :
    (extract [controlCmdRaw] "CH" [] [] (some "MAB")).toOption.map
        (fun pm => pm.messages.map fun ms => ms.is_control) = some [true] ∧
    (List.range 64).map (encode_physical throttleSig 40) =
      (List.range 64).map (Nat.testBit 0x64) ∧
    decode_physical throttleSig (Nat.testBit 0x64) = 40 := by
  refine ⟨by decide, ?_, ?_⟩
  · have hclamp : physicalClamp throttleSig 40 = 40 := by decide
    have hdiv : ((40 : ℚ) - throttleSig.offset) / throttleSig.scale = 100 := by
      show ((40 : ℚ) - 0) / (2 / 5) = 100
      norm_num
    have hround : round ((100 : ℚ)) = 100 := by
      rw [round_eq]
      rw [show ((100 : ℚ) + 1 / 2) = 201 / 2 by norm_num]
      rw [Int.floor_eq_iff]
      norm_num
    have hrb : rawBoundClamp throttleSig 100 = 100 := by decide
    unfold encode_physical
    rw [hclamp, hdiv, hround, hrb]
    decide
  · have hdec : decode throttleSig (Nat.testBit 0x64) = 100 := by decide
    unfold decode_physical
    rw [hdec]
    show ((100 : Int) : ℚ) * throttleSig.scale + throttleSig.offset = 40
    show ((100 : Int) : ℚ) * (2 / 5) + 0 = 40
    push_cast
    norm_num

end WhlDbc
